import Mathlib

/-!
Verification of the conversion-and-execution engine of the
`mcp-swagger-server` repository (Go) against its natural-language
specification.

The Go sources are shallowly embedded: strings become `List Char`,
Go maps (`map[string]interface{}`) become association lists processed in
list order (Go's map iteration order is unspecified; the list order
stands for one iteration order, and Go's in-place `delete` is made
observable by returning the final state of the map), JSON values become
an inductive `Json` type (Go's `json.Unmarshal` produces
`map[string]interface{}` values; `json.Marshal` serializes maps with
keys sorted), and fallible Go functions returning `(T, error)` become
`Except`-valued functions.

Each embedded definition cites the Go function it mirrors.
-/

namespace SwaggerMCP

/-- Go strings are modelled as lists of characters; everything the claims
touch is ASCII. -/
abbrev Str := List Char

/-- Left curly brace character (written via its code point). -/
def lb : Char := Char.ofNat 123

/-- Right curly brace character (written via its code point). -/
def rb : Char := Char.ofNat 125

/-- Go `strings.Contains s pat`. -/
def strContains : Str → Str → Bool
  | [], pat => pat = []
  | s@(_ :: tail), pat => pat.isPrefixOf s || strContains tail pat

/-- Worker for `replaceAll`: scans left to right, replacing each
non-overlapping occurrence of the nonempty string `old` by `new`, exactly
as Go's `strings.ReplaceAll`. The fuel argument (first) only bounds the
number of scanning steps so that the recursion is structural; a fuel of
`s.length` always suffices, since every step consumes at least one
character of `s`. -/
def replaceAllFuel (old new : Str) : Nat → Str → Str
  | _, [] => []
  | 0, s => s
  | fuel + 1, c :: rest =>
    if old.isPrefixOf (c :: rest) ∧ old ≠ [] then
      new ++ replaceAllFuel old new fuel (rest.drop (old.length - 1))
    else
      c :: replaceAllFuel old new fuel rest

/-- Go `strings.ReplaceAll s old new`. The repository only calls it with a
nonempty `old`; the empty-`old` case (where Go would interleave `new`
between characters) is mapped to the identity and never used. -/
def replaceAll (s old new : Str) : Str :=
  if old = [] then s else replaceAllFuel old new s.length s

/-- Go `strings.ToLower` (ASCII model; all inputs exercised by the claims
are ASCII). -/
def strToLower (s : Str) : Str := s.map Char.toLower

/-- Go `strings.EqualFold` (ASCII case-insensitive equality model). -/
def equalFold (a b : Str) : Bool := strToLower a = strToLower b

/-- Go `strings.TrimPrefix s "_"`: removes one leading underscore if
present. -/
def trimLeadingUnderscore : Str → Str
  | '_' :: rest => rest
  | s => s

/-- Go `strings.Split s sep` for a single-character separator. -/
def splitOnChar (c : Char) : Str → List Str
  | [] => [[]]
  | a :: rest =>
    let r := splitOnChar c rest
    if a = c then [] :: r
    else
      match r with
      | [] => [[a]]
      | h :: t => (a :: h) :: t

/-- Go `strings.Join parts sep` for a single-character separator. -/
def joinWithChar (c : Char) : List Str → Str
  | [] => []
  | [s] => s
  | s :: rest => s ++ c :: joinWithChar c rest

/-! ## Operations and tool-name derivation -/

/-- The fields of `go-openapi/spec.Operation` read by the tool-name,
description and filter logic. -/
structure Operation where
  ID : Str
  Summary : Str
  Description : Str
  Tags : List Str
deriving DecidableEq

/-- Tool-name derivation embedded from `server.go:136-149`
(`SwaggerMCPServer.registerOperation`): a nonempty `op.ID` has spaces
replaced by underscores and is lower-cased; otherwise the name is the
lower-cased method, an underscore, and the path with `/` replaced by `_`,
with `\x7b` and `\x7d` removed and one leading `_` trimmed. -/
def registerToolName (method path : Str) (op : Operation) : Str :=
  if op.ID ≠ [] then
    strToLower (replaceAll op.ID [' '] ['_'])
  else
    strToLower method ++ '_' ::
      trimLeadingUnderscore
        (replaceAll (replaceAll (replaceAll path ['/'] ['_']) [lb] []) [rb] [])

/-- Tool-name derivation embedded from `http_transport.go:253-266`
(`HTTPServer.getToolName`). -/
def getToolName (method path : Str) (op : Operation) : Str :=
  if op.ID ≠ [] then
    strToLower (replaceAll op.ID [' '] ['_'])
  else
    (strToLower method ++ ['_']) ++
      trimLeadingUnderscore
        (replaceAll (replaceAll (replaceAll path ['/'] ['_']) [lb] []) [rb] [])

/-- Tool-name derivation embedded from `lib.go` (`toolNameFor`); unlike the
other two it guards against a nil operation pointer, modelled with
`Option`. -/
def toolNameFor (method path : Str) (op : Option Operation) : Str :=
  match op with
  | some o =>
    if o.ID ≠ [] then
      strToLower (replaceAll o.ID [' '] ['_'])
    else
      (strToLower method ++ ['_']) ++
        trimLeadingUnderscore
          (replaceAll (replaceAll (replaceAll path ['/'] ['_']) [lb] []) [rb] [])
  | none =>
    (strToLower method ++ ['_']) ++
      trimLeadingUnderscore
        (replaceAll (replaceAll (replaceAll path ['/'] ['_']) [lb] []) [rb] [])

/-- Tool-name derivation written from the specification's words (§4.3): a
nonempty operation id has every space replaced by an underscore and is
then lower-cased; otherwise the lower-cased method, an underscore, and the
path with every `/` replaced by `_`, every curly brace deleted, and a
single leading `_` trimmed. Brace deletion is phrased as a filter, the
way the specification reads. -/
def specToolName (method path : Str) (op : Operation) : Str :=
  if op.ID ≠ [] then
    strToLower (replaceAll op.ID [' '] ['_'])
  else
    strToLower method ++ '_' ::
      trimLeadingUnderscore
        ((replaceAll path ['/'] ['_']).filter (fun c => ¬ (c = lb ∨ c = rb)))

/-! ## Glob matching: embedding of Go `path/filepath.Match` (Unix build),
called by `matchesPattern` in `utils.go`. -/

/-- Result of Go `filepath.Match`: `ErrBadPattern` or a boolean. -/
inductive MatchRes where
  | bad
  | res (b : Bool)
deriving DecidableEq

/-- Result of Go `matchChunk`: `ErrBadPattern`, a failed match, or the
unmatched remainder of the name. -/
inductive ChunkRes where
  | bad
  | nomatch
  | matched (rest : Str)
deriving DecidableEq

/-- Result of Go `getEsc`: a (possibly backslash-escaped) character and
the rest of the chunk, or `ErrBadPattern`. -/
inductive EscRes where
  | bad
  | okEsc (r : Char) (rest : Str)
deriving DecidableEq

/-- Go `getEsc` from `path/filepath/match.go`: reads one range endpoint of
a character class. Errors on an empty chunk, a leading `-` or `]`, a
trailing backslash, and a class that ends immediately after the
endpoint. -/
def getEsc : Str → EscRes
  | [] => .bad
  | c :: rest =>
    if c = '-' ∨ c = ']' then .bad
    else if c = '\\' then
      match rest with
      | [] => .bad
      | r :: rest2 => if rest2 = [] then .bad else .okEsc r rest2
    else if rest = [] then .bad else .okEsc c rest

/-- The range-parsing loop of Go `matchChunk`'s character-class case:
consumes the ranges of a class from the chunk, returning the rest of the
chunk and whether rune `r` fell in any range (`none` models
`ErrBadPattern`). The fuel only makes the recursion structural; each
iteration consumes at least one chunk character, so `chunk.length + 1`
always suffices. -/
def classRanges : Nat → Str → Char → Bool → Nat → Option (Str × Bool)
  | 0, _, _, _, _ => none
  | fuel + 1, chunk, r, m, nrange =>
    if chunk.head? = some ']' ∧ nrange > 0 then
      some (chunk.tail, m)
    else
      match getEsc chunk with
      | .bad => none
      | .okEsc lo rest1 =>
        match
          (if rest1.head? = some '-' then
            match getEsc rest1.tail with
            | .bad => none
            | .okEsc hi rest2 => some (hi, rest2)
          else some (lo, rest1)) with
        | none => none
        | some (hi, rest2) =>
          classRanges fuel rest2 r (m || decide (lo ≤ r ∧ r ≤ hi)) (nrange + 1)

/-- Go `matchChunk` (Unix build): checks whether `chunk` matches a leading
part of `s`; after the match fails it keeps scanning the chunk so that
syntax errors are still reported, exactly as the Go `failed` flag does.
Runes are modelled as characters. Fuel as in `classRanges`. -/
def matchChunkAux : Nat → Str → Str → Bool → ChunkRes
  | 0, _, _, _ => .bad
  | fuel + 1, chunk, s, failed0 =>
    match chunk with
    | [] => if failed0 then .nomatch else .matched s
    | c :: rest =>
      let failed := failed0 || decide (s = [])
      if c = '[' then
        let rs : Char × Str :=
          if failed then (Char.ofNat 0, s)
          else
            match s with
            | [] => (Char.ofNat 0, [])
            | a :: s2 => (a, s2)
        let ng : Bool × Str :=
          if rest.head? = some '^' then (true, rest.tail) else (false, rest)
        match classRanges (ng.2.length + 1) ng.2 rs.1 false 0 with
        | none => .bad
        | some (rest2, m) =>
          matchChunkAux fuel rest2 rs.2 (failed || (m == ng.1))
      else if c = '?' then
        if failed then matchChunkAux fuel rest s true
        else
          match s with
          | [] => matchChunkAux fuel rest [] true
          | a :: s2 => matchChunkAux fuel rest s2 (decide (a = '/'))
      else if c = '\\' then
        match rest with
        | [] => .bad
        | e :: rest2 =>
          if failed then matchChunkAux fuel rest2 s true
          else
            match s with
            | [] => matchChunkAux fuel rest2 [] true
            | a :: s2 => matchChunkAux fuel rest2 s2 (decide (¬ e = a))
      else
        if failed then matchChunkAux fuel rest s true
        else
          match s with
          | [] => matchChunkAux fuel rest [] true
          | a :: s2 => matchChunkAux fuel rest s2 (decide (¬ c = a))

/-- Go `matchChunk chunk s`. -/
def matchChunk (chunk s : Str) : ChunkRes :=
  matchChunkAux (chunk.length + 1) chunk s false

/-- The star-consuming half of Go `scanChunk`. -/
def dropStars : Str → Bool × Str
  | [] => (false, [])
  | c :: rest =>
    if c = '*' then (true, (dropStars rest).2) else (false, c :: rest)

/-- The scanning half of Go `scanChunk`: collects characters up to the
next top-level `*`, tracking character-class brackets and skipping the
character after a backslash. -/
def scanBody : Str → Bool → Str × Str
  | [], _ => ([], [])
  | c :: rest, inrange =>
    if c = '\\' then
      match rest with
      | [] => ([c], [])
      | d :: rest2 =>
        let pr := scanBody rest2 inrange
        (c :: d :: pr.1, pr.2)
    else if c = '[' then
      let pr := scanBody rest true
      (c :: pr.1, pr.2)
    else if c = ']' then
      let pr := scanBody rest false
      (c :: pr.1, pr.2)
    else if c = '*' then
      if inrange then
        let pr := scanBody rest inrange
        (c :: pr.1, pr.2)
      else ([], c :: rest)
    else
      let pr := scanBody rest inrange
      (c :: pr.1, pr.2)

/-- Go `scanChunk pattern`: leading stars, then the next chunk, then the
rest of the pattern. -/
def scanChunk (pattern : Str) : Bool × Str × Str :=
  let st := dropStars pattern
  let cr := scanBody st.2 false
  (st.1, cr.1, cr.2)

/-- Outcome of one outer iteration of Go `Match` after the direct chunk
match fails or leaves the last chunk unexhausted. -/
inductive StepOut where
  | bad
  | stop
  | cont (t : Str)
deriving DecidableEq

/-- Go `Match`'s inner star loop: looks for a position after the current
one — never skipping over a `/` — at which the chunk matches; `.cont t`
resumes the outer loop with remainder `t`, `.stop` falls through to the
trailing syntax validation. -/
def starLoop (chunk rest : Str) : Str → StepOut
  | [] => .stop
  | a :: n2 =>
    if a = '/' then .stop
    else
      match matchChunk chunk n2 with
      | .bad => .bad
      | .nomatch => starLoop chunk rest n2
      | .matched t =>
        if rest = [] ∧ t ≠ [] then starLoop chunk rest n2 else .cont t

/-- Go `Match`'s trailing check: before returning a no-error non-match,
the rest of the pattern is scanned and each chunk is matched against the
empty string purely for syntax validation. -/
def validateRest : Nat → Str → Bool
  | 0, _ => false
  | fuel + 1, pattern =>
    if pattern = [] then true
    else
      let sc := scanChunk pattern
      match matchChunk sc.2.1 [] with
      | .bad => false
      | _ => validateRest fuel sc.2.2

/-- Go `filepath.Match` outer loop. The fuel only makes the recursion
structural: every iteration consumes at least one pattern character, so
`pattern.length + 1` always suffices. -/
def goMatchAux : Nat → Str → Str → MatchRes
  | 0, _, _ => .bad
  | fuel + 1, pattern, name =>
    if pattern = [] then .res (decide (name = []))
    else
      let sc := scanChunk pattern
      let star := sc.1
      let chunk := sc.2.1
      let rest := sc.2.2
      if star ∧ chunk = [] then .res (! strContains name ['/'])
      else
        let next : StepOut :=
          match matchChunk chunk name with
          | .bad => .bad
          | .matched t =>
            if t = [] ∨ rest ≠ [] then .cont t
            else if star then starLoop chunk rest name else .stop
          | .nomatch => if star then starLoop chunk rest name else .stop
        match next with
        | .bad => .bad
        | .cont t => goMatchAux fuel rest t
        | .stop => if validateRest (rest.length + 1) rest then .res false else .bad

/-- Go `filepath.Match pattern name` on Unix (separator `/`). -/
def goMatch (pattern name : Str) : MatchRes :=
  goMatchAux (pattern.length + 1) pattern name

/-! ## Operation filtering (`utils.go`) -/

/-- Pattern conversion inside `matchesPattern` (`utils.go:555-575`): when
the pattern contains a left curly brace, every `/`-separated segment of
the form `\x7b...\x7d` is replaced by `*` before glob matching. -/
def convertPattern (pattern : Str) : Str :=
  if strContains pattern [lb] then
    joinWithChar '/'
      ((splitOnChar '/' pattern).map
        (fun part =>
          if part.head? = some lb ∧ part.getLast? = some rb then ['*'] else part))
  else pattern

/-- Embedding of `matchesPattern` (`utils.go:555-575`). The Go code
discards `filepath.Match`'s error — `matched, _ := filepath.Match(...)` —
and `Match` returns `matched = false` alongside every error, so a bad
pattern never matches. -/
def matchesPattern (path pattern : Str) : Bool :=
  match goMatch (convertPattern pattern) path with
  | .bad => false
  | .res b => b

/-- Filter policy: the fields of `APIFilter` (`utils.go`). -/
structure APIFilter where
  ExcludePaths : List Str
  ExcludePathPatterns : List Str
  ExcludeOperationIDs : List Str
  ExcludeMethods : List Str
  ExcludeTags : List Str
  IncludeOnlyPaths : List Str
  IncludeOnlyOperationIDs : List Str
deriving DecidableEq

/-- Embedding of `APIFilter.ShouldExcludeOperation` (`utils.go:476-552`)
for a non-nil filter (the Go nil-receiver case returns `false` and is not
reachable from a configured policy). The seven rules are evaluated in the
written order and short-circuit on the first that fires. -/
def ShouldExcludeOperation (f : APIFilter) (method path : Str) (op : Operation) : Bool :=
  if f.IncludeOnlyPaths.length > 0 ∧ ¬ f.IncludeOnlyPaths.any (fun p => path = p) then true
  else if f.IncludeOnlyOperationIDs.length > 0 ∧ op.ID ≠ [] ∧
      ¬ f.IncludeOnlyOperationIDs.any (fun i => op.ID = i) then true
  else if f.ExcludePaths.any (fun p => path = p) then true
  else if f.ExcludePathPatterns.any (fun pat => matchesPattern path pat) then true
  else if op.ID ≠ [] ∧ f.ExcludeOperationIDs.any (fun i => op.ID = i) then true
  else if f.ExcludeMethods.any (fun m => equalFold method m) then true
  else if f.ExcludeTags.length > 0 ∧ op.Tags.length > 0 ∧
      op.Tags.any (fun t => f.ExcludeTags.any (fun e => equalFold t e)) then true
  else false

/-! ## JSON values

Models the `interface\x7b\x7d` values produced by Go `json.Unmarshal`:
JSON objects become `map[string]interface\x7b\x7d` (here an association
list; Go map keys are unique and iteration order is unspecified — the
list order stands for one iteration order), and JSON numbers become
`float64` (here `Int`: every number the claims touch is integral). -/

inductive Json where
  | null
  | bool (b : Bool)
  | num (n : Int)
  | str (s : Str)
  | arr (elems : List Json)
  | obj (fields : List (Str × Json))

/-- Decimal digit character. -/
def digitChar (d : Nat) : Char := Char.ofNat (48 + d)

/-- Decimal rendering of a natural number (fuel-structural; `n + 1` steps
always suffice). -/
def natToStrAux : Nat → Nat → Str
  | 0, _ => []
  | fuel + 1, n =>
    if n < 10 then [digitChar n]
    else natToStrAux fuel (n / 10) ++ [digitChar (n % 10)]

/-- Decimal rendering of a natural number, as Go `fmt` and
`encoding/json` print one. -/
def natToStr (n : Nat) : Str := natToStrAux (n + 1) n

/-- Decimal rendering of an integer (Go prints an integral `float64`
without a decimal point or sign beyond `-`). -/
def intToStr (i : Int) : Str :=
  if i < 0 then '-' :: natToStr i.natAbs else natToStr i.natAbs

/-- Lower-case hexadecimal digit. -/
def hexDigit (d : Nat) : Char :=
  if d < 10 then Char.ofNat (48 + d) else Char.ofNat (87 + d)

/-- Go `encoding/json` string-character escaping (default encoder:
HTML-escapes `<`, `>`, `&`; `\u00xx` for other control characters). -/
def escapeChar (c : Char) : Str :=
  if c = '"' then ['\\', '"']
  else if c = '\\' then ['\\', '\\']
  else if c = '\n' then ['\\', 'n']
  else if c = '\r' then ['\\', 'r']
  else if c = '\t' then ['\\', 't']
  else if c = '<' ∨ c = '>' ∨ c = '&' ∨ c.toNat < 32 then
    ['\\', 'u', '0', '0', hexDigit (c.toNat / 16), hexDigit (c.toNat % 16)]
  else [c]

/-- Go `encoding/json` string-body escaping. -/
def escapeStr (s : Str) : Str := (s.map escapeChar).flatten

/-- Byte-wise lexicographic string order, as Go `sort.Strings` (used by
`encoding/json` and `fmt` when rendering maps). -/
def strLe : Str → Str → Bool
  | [], _ => true
  | _ :: _, [] => false
  | a :: as, b :: bs => if a = b then strLe as bs else decide (a < b)

/-- Insertion into a key-sorted list of (key, rendered value) pairs. -/
def insertByKey (kv : Str × Str) : List (Str × Str) → List (Str × Str)
  | [] => [kv]
  | h :: t => if strLe kv.1 h.1 then kv :: h :: t else h :: insertByKey kv t

/-- Key-sorting of (key, rendered value) pairs, modelling Go's sorted map
rendering. -/
def sortByKey : List (Str × Str) → List (Str × Str)
  | [] => []
  | h :: t => insertByKey h (sortByKey t)

/-- Go `strings.Join` with an arbitrary separator string. -/
def joinWithSep (sep : Str) : List Str → Str
  | [] => []
  | [s] => s
  | s :: rest => s ++ sep ++ joinWithSep sep rest

mutual

/-- Go `json.Marshal` of an unmarshalled value; object keys are sorted,
as Go marshals maps. -/
def jsonMarshal : Json → Str
  | .null => "null".data
  | .bool true => "true".data
  | .bool false => "false".data
  | .num n => intToStr n
  | .str s => '"' :: (escapeStr s ++ ['"'])
  | .arr xs => '[' :: (joinWithChar ',' (jsonMarshalList xs) ++ [']'])
  | .obj fs =>
    lb :: (joinWithChar ','
      ((sortByKey (jsonMarshalFields fs)).map
        (fun kv => '"' :: (escapeStr kv.1 ++ '"' :: ':' :: kv.2))) ++ [rb])

/-- Values of a JSON array, each marshalled. -/
def jsonMarshalList : List Json → List Str
  | [] => []
  | x :: xs => jsonMarshal x :: jsonMarshalList xs

/-- Fields of a JSON object, values marshalled, keys kept for sorting. -/
def jsonMarshalFields : List (Str × Json) → List (Str × Str)
  | [] => []
  | kv :: t => (kv.1, jsonMarshal kv.2) :: jsonMarshalFields t

end

/-- Two-space indentation at a depth, as `json.MarshalIndent(v, "", "  ")`
produces. -/
def indentOf (depth : Nat) : Str := List.replicate (2 * depth) ' '

mutual

/-- Go `json.MarshalIndent(v, "", "  ")` of an unmarshalled value at a
nesting depth; object keys sorted as in `jsonMarshal`. -/
def jsonMarshalIndent : Nat → Json → Str
  | _, .null => "null".data
  | _, .bool true => "true".data
  | _, .bool false => "false".data
  | _, .num n => intToStr n
  | _, .str s => '"' :: (escapeStr s ++ ['"'])
  | depth, .arr xs =>
    match jsonMarshalIndentList (depth + 1) xs with
    | [] => ['[', ']']
    | items =>
      '[' :: '\n' ::
        (joinWithSep [',', '\n'] (items.map (fun it => indentOf (depth + 1) ++ it)) ++
          '\n' :: (indentOf depth ++ [']']))
  | depth, .obj fs =>
    match sortByKey (jsonMarshalIndentFields (depth + 1) fs) with
    | [] => [lb, rb]
    | items =>
      lb :: '\n' ::
        (joinWithSep [',', '\n']
          (items.map
            (fun kv =>
              indentOf (depth + 1) ++ '"' :: (escapeStr kv.1 ++ '"' :: ':' :: ' ' :: kv.2))) ++
          '\n' :: (indentOf depth ++ [rb]))

/-- Array elements under `jsonMarshalIndent`. -/
def jsonMarshalIndentList (depth : Nat) : List Json → List Str
  | [] => []
  | x :: xs => jsonMarshalIndent depth x :: jsonMarshalIndentList depth xs

/-- Object fields under `jsonMarshalIndent`, values rendered, keys kept
for sorting. -/
def jsonMarshalIndentFields (depth : Nat) : List (Str × Json) → List (Str × Str)
  | [] => []
  | kv :: t => (kv.1, jsonMarshalIndent depth kv.2) :: jsonMarshalIndentFields depth t

end

mutual

/-- Go `fmt.Sprintf("%v", value)` of an unmarshalled JSON value: strings
print raw, an integral `float64` prints without a decimal point, `nil`
prints `<nil>`, slices print `[a b]`, and maps print `map[k:v ...]` with
sorted keys. -/
def goFormatV : Json → Str
  | .null => "<nil>".data
  | .bool true => "true".data
  | .bool false => "false".data
  | .num n => intToStr n
  | .str s => s
  | .arr xs => '[' :: (joinWithChar ' ' (goFormatVList xs) ++ [']'])
  | .obj fs =>
    "map[".data ++
      (joinWithChar ' '
        ((sortByKey (goFormatVFields fs)).map (fun kv => kv.1 ++ ':' :: kv.2)) ++ [']'])

/-- Slice elements under `%v`. -/
def goFormatVList : List Json → List Str
  | [] => []
  | x :: xs => goFormatV x :: goFormatVList xs

/-- Map entries under `%v`, values rendered, keys kept for sorting. -/
def goFormatVFields : List (Str × Json) → List (Str × Str)
  | [] => []
  | kv :: t => (kv.1, goFormatV kv.2) :: goFormatVFields t

end

/-! ## Request Executor

The request-building halves of `server.go` `createHandler` (lines
281-328) and `http_transport.go` `buildAPIRequest` (lines 269-323) are
line-for-line the same algorithm; both are embedded, over an argument
association list standing for the Go map. Since Go `delete` mutates the
map the caller passed in, the final state of that map is part of the
result (`finalArgs`). -/

/-- The outcome of request building: the URL, the marshalled body (if
any), and the final state of the caller's argument map. -/
structure BuiltRequest where
  url : Str
  body : Option Str
  finalArgs : List (Str × Json)

/-- Go `x == nil` on an unmarshalled `interface\x7b\x7d` value: JSON
`null` unmarshals to the nil interface, so `Json.null` is the model of
nil. Both front-ends test their captured `bodyData` with `!= nil` before
using it as the payload. -/
def Json.isNull : Json → Bool
  | .null => true
  | _ => false

/-- Go map read `args[key]` on the association-list model. -/
def lookupArg : List (Str × Json) → Str → Option Json
  | [], _ => none
  | kv :: t, key => if kv.1 = key then some kv.2 else lookupArg t key

/-- Go `delete(args, key)` on the association-list model (map keys are
unique; removing every occurrence coincides with removing the one). -/
def eraseArg : List (Str × Json) → Str → List (Str × Json)
  | [], _ => []
  | kv :: t, key => if kv.1 = key then eraseArg t key else kv :: eraseArg t key

/-- The path-parameter loop shared by both front-ends: for each remaining
pair in iteration order, if the placeholder `\x7bkey\x7d` occurs in the
URL built so far, substitute the `%v` rendering of the value into the URL
and delete the key; returns the final URL and the surviving pairs. -/
def substLoop : Str → List (Str × Json) → Str × List (Str × Json)
  | url, [] => (url, [])
  | url, kv :: rest =>
    let ph : Str := lb :: (kv.1 ++ [rb])
    if strContains url ph then
      substLoop (replaceAll url ph (goFormatV kv.2)) rest
    else
      let pr := substLoop url rest
      (pr.1, kv :: pr.2)

/-- The query-string build shared by both front-ends: `key=value` pairs
joined with `&`. -/
def queryJoin (args : List (Str × Json)) : Str :=
  joinWithChar '&' (args.map (fun kv => kv.1 ++ '=' :: goFormatV kv.2))

/-- The methods that carry a JSON body in both front-ends. -/
def isBodyMethod (method : Str) : Bool :=
  method = "POST".data ∨ method = "PUT".data ∨ method = "PATCH".data

/-- Embedding of the request building of `http_transport.go`
`buildAPIRequest` (lines 269-323): concatenate base URL and path, pull
out the `body` key (`bodyData` starts as the nil interface, here
`Json.null`, and a present key overwrites it — so a `body` bound to JSON
null leaves it nil), substitute path parameters, then for POST/PUT/PATCH
select the payload with Go's `bodyData != nil` — the captured body when
non-nil, else the remaining map when non-empty, else none — and for other
methods append the remaining pairs as query parameters. -/
def buildAPIRequest (method baseURL path : Str) (arguments : List (Str × Json)) :
    BuiltRequest :=
  let url0 := baseURL ++ path
  let bodyData : Json :=
    match lookupArg arguments "body".data with
    | some b => b
    | none => Json.null
  let args1 := eraseArg arguments "body".data
  let pr := substLoop url0 args1
  if isBodyMethod method then
    let dataToSend : Option Json :=
      if bodyData.isNull = false then some bodyData
      else if pr.2.length > 0 then some (Json.obj pr.2) else none
    ⟨pr.1, dataToSend.map jsonMarshal, pr.2⟩
  else if pr.2.length > 0 then
    ⟨(if strContains pr.1 ['?'] then pr.1 ++ '&' :: queryJoin pr.2
      else pr.1 ++ '?' :: queryJoin pr.2),
      none, pr.2⟩
  else
    ⟨pr.1, none, pr.2⟩

/-- Embedding of the request building inside `server.go` `createHandler`
(lines 281-328), which duplicates `buildAPIRequest` line for line (there
the map is freshly unmarshalled from the raw JSON arguments inside the
handler). -/
def createHandlerRequest (method baseURL path : Str) (params : List (Str × Json)) :
    BuiltRequest :=
  let url0 := baseURL ++ path
  let bodyData : Json :=
    match lookupArg params "body".data with
    | some b => b
    | none => Json.null
  let args1 := eraseArg params "body".data
  let pr := substLoop url0 args1
  if isBodyMethod method then
    let dataToSend : Option Json :=
      if bodyData.isNull = false then some bodyData
      else if pr.2.length > 0 then some (Json.obj pr.2) else none
    ⟨pr.1, dataToSend.map jsonMarshal, pr.2⟩
  else if pr.2.length > 0 then
    ⟨(if strContains pr.1 ['?'] then pr.1 ++ '&' :: queryJoin pr.2
      else pr.1 ++ '?' :: queryJoin pr.2),
      none, pr.2⟩
  else
    ⟨pr.1, none, pr.2⟩

/-- The substitution loop as claim C3 words it: a key is substituted (and
deleted) exactly when its placeholder occurs in the path template, the
template being fixed throughout the loop. -/
def specSubstLoop (pathTemplate : Str) : Str → List (Str × Json) → Str × List (Str × Json)
  | url, [] => (url, [])
  | url, kv :: rest =>
    let ph : Str := lb :: (kv.1 ++ [rb])
    if strContains pathTemplate ph then
      specSubstLoop pathTemplate (replaceAll url ph (goFormatV kv.2)) rest
    else
      let pr := specSubstLoop pathTemplate url rest
      (pr.1, kv :: pr.2)

/-- Request building as claim C3 (amended) words it: identical to the
code — including the nil-interface test on the captured body payload —
except that the substitution test looks at the path template instead of
the URL built so far. -/
def specBuildRequest (method baseURL path : Str) (arguments : List (Str × Json)) :
    BuiltRequest :=
  let url0 := baseURL ++ path
  let bodyData : Json :=
    match lookupArg arguments "body".data with
    | some b => b
    | none => Json.null
  let args1 := eraseArg arguments "body".data
  let pr := specSubstLoop path url0 args1
  if isBodyMethod method then
    let dataToSend : Option Json :=
      if bodyData.isNull = false then some bodyData
      else if pr.2.length > 0 then some (Json.obj pr.2) else none
    ⟨pr.1, dataToSend.map jsonMarshal, pr.2⟩
  else if pr.2.length > 0 then
    ⟨(if strContains pr.1 ['?'] then pr.1 ++ '&' :: queryJoin pr.2
      else pr.1 ++ '?' :: queryJoin pr.2),
      none, pr.2⟩
  else
    ⟨pr.1, none, pr.2⟩

/-! ## Response normalization and the HTTP invocation endpoint

The network call itself is external; these functions embed what each
front-end does with the status code and body bytes it read back. The
`parsed` argument stands for the outcome of `json.Unmarshal` on the body
(`some` on success). -/

/-- The single-text-content result of the session front-end
(`mcp.CallToolResult` with one `TextContent`). -/
structure CallToolResult where
  text : Str
  isError : Bool

/-- Embedding of the response handling of `server.go` `createHandler`
(lines 363-396): a status of at least 400 yields a non-thrown result
carrying `API error <status>: <body>` with `IsError` set; otherwise the
body is pretty-printed if it parses as JSON and returned raw if not.
`Except.error` stands for the handler's `(nil, err)` returns, none of
which occur here. -/
def handleHTTPResponse (statusCode : Nat) (responseBody : Str) (parsed : Option Json) :
    Except Str CallToolResult :=
  if 400 ≤ statusCode then
    .ok ⟨"API error ".data ++ natToStr statusCode ++ ": ".data ++ responseBody, true⟩
  else
    match parsed with
    | some j => .ok ⟨jsonMarshalIndent 0 j, false⟩
    | none => .ok ⟨responseBody, false⟩

/-- Embedding of the response handling of `http_transport.go`
`executeHTTPRequest` (lines 363-383): a status of at least 400 yields a
non-thrown structured value with `error: true`, the status, and the body;
otherwise the parsed JSON, or a text wrapper when the body is not
JSON. -/
def executeHTTPResponse (statusCode : Nat) (responseBody : Str) (parsed : Option Json) :
    Except Str Json :=
  if 400 ≤ statusCode then
    .ok (Json.obj [("error".data, Json.bool true), ("status".data, Json.num statusCode),
      ("message".data, Json.str responseBody)])
  else
    match parsed with
    | some j => .ok j
    | none => .ok (Json.obj [("content".data, Json.str responseBody),
        ("type".data, Json.str "text".data)])

/-- The return of `executeAPICall` (`http_transport.go:198-218`), which
`handleToolCallMCP` consumes: a normalized result, or an error (tool not
resolved, request building failed, or the HTTP call itself failed). -/
inductive ToolCallOutcome where
  | success (result : Json)
  | failure (msg : Str)

/-- Embedding of `handleToolCallMCP` (`http_transport.go:170-195`): the
response value and HTTP status of the `tools/call` branch of the MCP
endpoint. A missing or non-string `name` yields 400; a failed
`executeAPICall` yields 500; any successfully produced result — the
`arguments` entry is forwarded to `executeAPICall`, whose outcome is the
`outcome` argument — is returned with status 200 (`http.StatusOK`). -/
def handleToolCallMCP (params : List (Str × Json)) (outcome : ToolCallOutcome) :
    Json × Nat :=
  match lookupArg params "name".data with
  | some (Json.str _) =>
    match outcome with
    | .failure e => (Json.obj [("error".data, Json.str e)], 500)
    | .success r => (r, 200)
  | _ => (Json.obj [("error".data, Json.str "Missing or invalid tool name".data)], 400)

/-! ## Path templates, for settling C3

The counterexample to C3 needs no extra structure; the amended statement
quantifies over well-formed path templates: alternations of brace-free
literal text and placeholders with brace-free names, with brace-free base
URL, keys and rendered values (the shape of every real OpenAPI path). -/

/-- A string containing no curly brace. -/
def braceFree (s : Str) : Prop := lb ∉ s ∧ rb ∉ s

instance (s : Str) : Decidable (braceFree s) := by
  unfold braceFree; infer_instance

/-- One piece of a path template: literal text or a `\x7bname\x7d`
placeholder. -/
inductive TemplatePiece where
  | lit (s : Str)
  | hole (name : Str)
deriving DecidableEq

/-- The text of a path template. -/
def renderTemplate : List TemplatePiece → Str
  | [] => []
  | .lit s :: rest => s ++ renderTemplate rest
  | .hole n :: rest => lb :: (n ++ rb :: renderTemplate rest)

/-- Well-formedness of one template piece: its text carries no brace. -/
def pieceOK : TemplatePiece → Prop
  | .lit s => braceFree s
  | .hole n => braceFree n

instance (pc : TemplatePiece) : Decidable (pieceOK pc) := by
  cases pc <;> (unfold pieceOK; infer_instance)

/-- Substituting a literal value for every occurrence of one
placeholder. -/
def substHole (k v : Str) : List TemplatePiece → List TemplatePiece
  | [] => []
  | .lit s :: rest => .lit s :: substHole k v rest
  | .hole n :: rest => (if n = k then .lit v else .hole n) :: substHole k v rest

/-! ## Input-schema building (`buildParametersSchema`, C7) -/

/-- The fields of a `spec.Schema` nested under `Properties` that
`buildParametersSchema` reads: `Type` (a string-or-array) and
`Description`. -/
structure PropSchema where
  types : List Str
  descr : Str
deriving DecidableEq

/-- The fields of a body parameter's `spec.Schema` that
`buildParametersSchema` reads: `Type` and `Properties`; `none` models a
nil Go map (the code tests `Properties != nil`, and a nil map differs
from an empty one). -/
structure ParamSchema where
  types : List Str
  properties : Option (List (Str × PropSchema))
deriving DecidableEq

/-- The field of `spec.Items` that `buildParametersSchema` reads. -/
structure ItemsDef where
  itype : Str
deriving DecidableEq

/-- The fields of `spec.Parameter` that `buildParametersSchema` reads:
`Name`, `In` (`loc`), `Description` (`descr`), `Required`, `Type`
(`ptype`), `Format`, `Schema`, `Items`. -/
structure Parameter where
  name : Str
  loc : Str
  descr : Str
  required : Bool
  ptype : Str
  format : Str
  schema : Option ParamSchema
  items : Option ItemsDef
deriving DecidableEq

/-- The Type Mapper, embedded from `getJSONType` (`server.go:400-415`). -/
def getJSONType (swaggerType : Str) : Str :=
  if swaggerType = "integer".data then "number".data
  else if swaggerType = "number".data then "number".data
  else if swaggerType = "boolean".data then "boolean".data
  else if swaggerType = "array".data then "array".data
  else if swaggerType = "object".data then "object".data
  else "string".data

/-- One nested property of a body parameter's schema
(`server.go:206-215`): its first type entry when any, and its description
when non-empty. -/
def buildPropEntry (prop : PropSchema) : Json :=
  Json.obj
    ((if prop.types.length > 0 then
        [("type".data, Json.str (prop.types.headD []))] else []) ++
     (if prop.descr ≠ [] then [("description".data, Json.str prop.descr)] else []))

/-- The property object built for one parameter (`server.go:190-236`):
a non-empty declared type goes through the Type Mapper; otherwise an
attached schema contributes its first type entry verbatim (default
`object`) and its properties; otherwise the object is empty. A non-empty
description and format are added, and an items sub-schema when the
declared type is `array` and items are present. -/
def buildParamSchema (param : Parameter) : Json :=
  Json.obj
    ((if param.ptype ≠ [] then
        [("type".data, Json.str (getJSONType param.ptype))]
      else
        match param.schema with
        | some sch =>
          [("type".data, Json.str (sch.types.headD "object".data))] ++
          (match sch.properties with
           | some props =>
             [("properties".data,
               Json.obj (props.map (fun p => (p.1, buildPropEntry p.2))))]
           | none => [])
        | none => []) ++
     (if param.descr ≠ [] then [("description".data, Json.str param.descr)] else []) ++
     (if param.format ≠ [] then [("format".data, Json.str param.format)] else []) ++
     (if param.ptype = "array".data then
        match param.items with
        | some it =>
          [("items".data,
            Json.obj (if it.itype ≠ [] then
              [("type".data, Json.str (getJSONType it.itype))] else []))]
        | none => []
      else []))

/-- The skip test of `buildParametersSchema` (`server.go:182-188`): drop
header parameters not case-insensitively named `content-type`, and drop
cookie parameters. -/
def keepParam (param : Parameter) : Bool :=
  !((param.loc = "header".data && !(equalFold param.name "content-type".data)) ||
    param.loc = "cookie".data)

/-- The schema key of a parameter (`server.go:239-243`): literally `body`
for a body-located parameter, its own name otherwise. -/
def paramKey (param : Parameter) : Str :=
  if param.loc = "body".data then "body".data else param.name

/-- Go map assignment `m[key] = v` on the association-list model:
overwrite in place, insert at the end otherwise. -/
def mapSet : List (Str × Json) → Str → Json → List (Str × Json)
  | [], key, v => [(key, v)]
  | kv :: t, key, v => if kv.1 = key then (key, v) :: t else kv :: mapSet t key v

/-- The parameter fold of `buildParametersSchema` (`server.go:181-250`):
accumulates the properties map and the required list in encounter
order. -/
def buildParametersSchemaAux :
    List Parameter → List (Str × Json) → List Str → List (Str × Json) × List Str
  | [], props, req => (props, req)
  | p :: rest, props, req =>
    if keepParam p then
      buildParametersSchemaAux rest (mapSet props (paramKey p) (buildParamSchema p))
        (if p.required then req ++ [paramKey p] else req)
    else
      buildParametersSchemaAux rest props req

/-- Embedding of `buildParametersSchema` (`server.go:177-262`): an object
schema with the accumulated properties, and a `required` list only when
non-empty. -/
def buildParametersSchema (params : List Parameter) : Json :=
  let pr := buildParametersSchemaAux params [] []
  Json.obj
    ([("type".data, Json.str "object".data), ("properties".data, Json.obj pr.1)] ++
     (if pr.2.length > 0 then [("required".data, Json.arr (pr.2.map Json.str))] else []))

/-- Claim C7's per-parameter property, written from the claim's words:
the content dispatches on the parameter's location — a body parameter
copies type and properties from its schema when present, defaulting to
`object`; every other parameter derives its type from the Type Mapper
applied to its declared type. Format, description and items as in the
code. -/
def claimParamSchema (param : Parameter) : Json :=
  Json.obj
    ((if param.loc = "body".data then
        match param.schema with
        | some sch =>
          [("type".data, Json.str (sch.types.headD "object".data))] ++
          (match sch.properties with
           | some props =>
             [("properties".data,
               Json.obj (props.map (fun p => (p.1, buildPropEntry p.2))))]
           | none => [])
        | none => [("type".data, Json.str "object".data)]
      else
        [("type".data, Json.str (getJSONType param.ptype))]) ++
     (if param.descr ≠ [] then [("description".data, Json.str param.descr)] else []) ++
     (if param.format ≠ [] then [("format".data, Json.str param.format)] else []) ++
     (if param.ptype = "array".data then
        match param.items with
        | some it =>
          [("items".data,
            Json.obj (if it.itype ≠ [] then
              [("type".data, Json.str (getJSONType it.itype))] else []))]
        | none => []
      else []))

/-- The fold of the claim-worded schema builder. -/
def claimInputSchemaAux :
    List Parameter → List (Str × Json) → List Str → List (Str × Json) × List Str
  | [], props, req => (props, req)
  | p :: rest, props, req =>
    if keepParam p then
      claimInputSchemaAux rest (mapSet props (paramKey p) (claimParamSchema p))
        (if p.required then req ++ [paramKey p] else req)
    else
      claimInputSchemaAux rest props req

/-- The input schema as claim C7 words it. -/
def claimInputSchema (params : List Parameter) : Json :=
  let pr := claimInputSchemaAux params [] []
  Json.obj
    ([("type".data, Json.str "object".data), ("properties".data, Json.obj pr.1)] ++
     (if pr.2.length > 0 then [("required".data, Json.arr (pr.2.map Json.str))] else []))

/-- A concrete parameter list exercising every rule of C7: a required
path parameter, a cookie parameter, a plain header parameter, a
`Content-Type` header parameter, a required body parameter with a schema,
and an array query parameter with items. -/
def exampleParams : List Parameter :=
  [⟨"id".data, "path".data, [], true, "string".data, [], none, none⟩,
   ⟨"sess".data, "cookie".data, [], true, "string".data, [], none, none⟩,
   ⟨"X-Trace".data, "header".data, [], true, "string".data, [], none, none⟩,
   ⟨"Content-Type".data, "header".data, [], false, "string".data, [], none, none⟩,
   ⟨"payload".data, "body".data, [], true, [], [],
     some ⟨["object".data], some [("name".data, ⟨["string".data], "the name".data⟩)]⟩,
     none⟩,
   ⟨"tags".data, "query".data, [], false, "array".data, [], none, some ⟨"integer".data⟩⟩]

/-! ## Theorems -/

/-- The fuel of `replaceAllFuel` is irrelevant as long as it covers the
length of the scanned string. -/
theorem replaceAllFuel_irrel (old new : Str) :
    ∀ (f : Nat) (s : Str) (g : Nat), s.length ≤ f → s.length ≤ g →
      replaceAllFuel old new f s = replaceAllFuel old new g s := by
  intro f
  induction f with
  | zero =>
    intro s g hf _
    have hs : s = [] := List.eq_nil_of_length_eq_zero (Nat.le_zero.mp hf)
    subst hs
    cases g <;> rfl
  | succ f ih =>
    intro s g hf hg
    cases s with
    | nil => cases g <;> rfl
    | cons c rest =>
      cases g with
      | zero => simp at hg
      | succ g' =>
        simp only [replaceAllFuel]
        by_cases hm : old.isPrefixOf (c :: rest) ∧ old ≠ []
        · rw [if_pos hm, if_pos hm]
          have hlen : (rest.drop (old.length - 1)).length ≤ rest.length := by
            simp [List.length_drop]
          simp only [List.length_cons] at hf hg
          exact congrArg (new ++ ·) (ih _ _ (by omega) (by omega))
        · rw [if_neg hm, if_neg hm]
          simp only [List.length_cons] at hf hg
          exact congrArg (c :: ·) (ih _ _ (by omega) (by omega))

/-- One-step unfolding of `replaceAll` on a nonempty string, for a
nonempty `old`. -/
theorem replaceAll_cons (old new : Str) (h : old ≠ []) (c : Char) (rest : Str) :
    replaceAll (c :: rest) old new =
      if old.isPrefixOf (c :: rest) then
        new ++ replaceAll (rest.drop (old.length - 1)) old new
      else
        c :: replaceAll rest old new := by
  simp only [replaceAll, if_neg h]
  rw [show (c :: rest).length = rest.length + 1 from rfl]
  simp only [replaceAllFuel]
  by_cases hm : old.isPrefixOf (c :: rest)
  · rw [if_pos ⟨hm, h⟩, if_pos hm]
    exact congrArg (new ++ ·)
      (replaceAllFuel_irrel old new _ _ _ (by simp [List.length_drop]) le_rfl)
  · rw [if_neg (fun hc => hm hc.1), if_neg hm]

/-- The empty string is unchanged by `replaceAll`. -/
theorem replaceAll_nil_left (old new : Str) : replaceAll [] old new = [] := by
  by_cases h : old = [] <;> simp [replaceAll, h, replaceAllFuel]

/-- Deleting every occurrence of a single character by `ReplaceAll` with
the empty replacement is filtering that character out. -/
theorem replaceAll_single_nil (c : Char) (s : Str) :
    replaceAll s [c] [] = s.filter (fun a => a ≠ c) := by
  induction s with
  | nil => simp [replaceAll_nil_left]
  | cons a t ih =>
    rw [replaceAll_cons _ _ (by simp) a t]
    by_cases h : c = a
    · subst h
      simp [List.isPrefixOf, ih]
    · have hb : (c == a) = false := by simp [h]
      simp [List.isPrefixOf, hb, ih, Ne.symm h]

/-- C1: for every operation, the derived tool name equals: if the
operation's `operationId` is non-empty, the `operationId` with every
space replaced by an underscore and then lower-cased; otherwise the
lower-cased method, an underscore, and the path with every `/` replaced
by `_`, every curly brace deleted, and a single leading `_` trimmed; an
operation with no id, method POST and path `/users/\x7bid\x7d/posts` is
named `post_users_id_posts`, and any operation with operationId
`getUserById` is named `getuserbyid`. -/
theorem claim_C1_tool_name_derivation :
    (∀ (method path : Str) (op : Operation),
        registerToolName method path op = specToolName method path op) ∧
    registerToolName "POST".data "/users/\x7bid\x7d/posts".data ⟨[], [], [], []⟩ =
      "post_users_id_posts".data ∧
    (∀ (method path summary descr : Str) (tags : List Str),
        registerToolName method path ⟨"getUserById".data, summary, descr, tags⟩ =
          "getuserbyid".data) := by
  refine ⟨?_, by decide, ?_⟩
  · intro method path op
    unfold registerToolName specToolName
    by_cases h : op.ID = []
    · rw [if_neg (not_not_intro h), if_neg (not_not_intro h)]
      rw [replaceAll_single_nil, replaceAll_single_nil, List.filter_filter]
      have hfil : List.filter (fun a => decide (a ≠ rb) && decide (a ≠ lb))
            (replaceAll path ['/'] ['_']) =
          List.filter (fun c => decide ¬ (c = lb ∨ c = rb))
            (replaceAll path ['/'] ['_']) := by
        apply List.filter_congr
        intro a _
        by_cases h1 : a = lb <;> by_cases h2 : a = rb <;> simp [h1, h2]
      rw [hfil]
    · rw [if_pos h, if_pos h]
  · intro method path summary descr tags
    have h1 : ∀ op : Operation, op.ID = "getUserById".data →
        registerToolName method path op =
          strToLower (replaceAll "getUserById".data [' '] ['_']) := by
      intro op hop
      unfold registerToolName
      rw [hop]
      exact if_pos (by decide)
    rw [h1 _ rfl]
    decide

/-- C2: tool-name derivation is deterministic and identical across the
front-ends: for every `(method, path, operation)`, the session
front-end's `registerOperation` naming, the HTTP front-end's
`getToolName`, and `toolNameFor` agree. -/
theorem claim_C2_tool_name_parity :
    ∀ (method path : Str) (op : Operation),
      registerToolName method path op = getToolName method path op ∧
      getToolName method path op = toolNameFor method path (some op) := by
  intro method path op
  constructor
  · unfold registerToolName getToolName
    by_cases h : op.ID = [] <;> simp [h]
  · rfl

/-- C4: the filter's rules short-circuit in order with the include-only
rules first; whenever `includeOnlyPaths` is non-empty, every operation
whose path is not an exact member is excluded regardless of every other
rule and of the operation's id, method or tags; in particular with
`includeOnlyPaths = ["/users"]` any operation at `/orders` is excluded. -/
theorem claim_C4_include_only_paths :
    (∀ (f : APIFilter) (method path : Str) (op : Operation),
        f.IncludeOnlyPaths ≠ [] → path ∉ f.IncludeOnlyPaths →
        ShouldExcludeOperation f method path op = true) ∧
    (∀ (f : APIFilter) (method : Str) (op : Operation),
        f.IncludeOnlyPaths = ["/users".data] →
        ShouldExcludeOperation f method "/orders".data op = true) := by
  have main : ∀ (f : APIFilter) (method path : Str) (op : Operation),
      f.IncludeOnlyPaths ≠ [] → path ∉ f.IncludeOnlyPaths →
      ShouldExcludeOperation f method path op = true := by
    intro f method path op h1 h2
    unfold ShouldExcludeOperation
    rw [if_pos]
    refine ⟨List.length_pos.mpr h1, ?_⟩
    intro hc
    have ⟨p, hp, he⟩ := List.any_eq_true.mp hc
    exact h2 (by rw [of_decide_eq_true he]; exact hp)
  refine ⟨main, ?_⟩
  intro f method op hf
  apply main
  · rw [hf]; decide
  · rw [hf]; decide

/-- Witness for C4: a concrete policy with `includeOnlyPaths = ["/users"]`
that also excludes method GET and has an include-only id list, applied to
an operation at `/orders`. -/
theorem claim_C4_include_only_paths_witness :
    ((⟨[], [], [], ["GET".data], [], ["/users".data], ["x".data]⟩ : APIFilter).IncludeOnlyPaths ≠ [] ∧
      "/orders".data ∉
        (⟨[], [], [], ["GET".data], [], ["/users".data], ["x".data]⟩ : APIFilter).IncludeOnlyPaths) ∧
    ShouldExcludeOperation ⟨[], [], [], ["GET".data], [], ["/users".data], ["x".data]⟩
      "POST".data "/orders".data ⟨[], [], [], []⟩ = true :=
  ⟨⟨by decide, by decide⟩,
    claim_C4_include_only_paths.1 _ _ _ _ (by decide) (by decide)⟩

/-- C8: exclude-pattern matching first rewrites every `\x7b...\x7d`
path-template segment of the pattern to `*` and then applies Go glob
matching in which `*` never crosses a `/`: every policy whose pattern
list contains `/admin/*` excludes path `/admin/settings`; the policy with
only that pattern set does not exclude `/public/settings`; `/admin/*`
does not match `/admin/a/b`; and the pattern `/admin/\x7bid\x7d` matches
exactly what `/admin/*` matches. -/
theorem claim_C8_exclude_patterns :
    (∀ (f : APIFilter) (method : Str) (op : Operation),
        "/admin/*".data ∈ f.ExcludePathPatterns →
        ShouldExcludeOperation f method "/admin/settings".data op = true) ∧
    (∀ (method : Str) (op : Operation),
        ShouldExcludeOperation ⟨[], ["/admin/*".data], [], [], [], [], []⟩
          method "/public/settings".data op = false) ∧
    matchesPattern "/admin/settings".data "/admin/*".data = true ∧
    matchesPattern "/admin/a/b".data "/admin/*".data = false ∧
    (∀ path : Str,
        matchesPattern path "/admin/\x7bid\x7d".data =
          matchesPattern path "/admin/*".data) := by
  refine ⟨?_, ?_, by decide, by decide, ?_⟩
  · intro f method op hmem
    unfold ShouldExcludeOperation
    split
    · rfl
    · split
      · rfl
      · split
        · rfl
        · rw [if_pos (List.any_eq_true.mpr ⟨_, hmem, by decide⟩)]
  · intro method op
    have hm : matchesPattern "/public/settings".data "/admin/*".data = false := by decide
    simp [ShouldExcludeOperation, hm]
  · intro path
    have hcv : convertPattern "/admin/\x7bid\x7d".data = convertPattern "/admin/*".data := by
      decide
    simp [matchesPattern, hcv]

/-- Witness for C8: a concrete policy whose pattern list contains
`/admin/*` (alongside an exact-path exclusion), applied at
`/admin/settings`. -/
theorem claim_C8_exclude_patterns_witness :
    "/admin/*".data ∈
      (⟨["/x".data], ["/admin/*".data], [], [], [], [], []⟩ : APIFilter).ExcludePathPatterns ∧
    ShouldExcludeOperation ⟨["/x".data], ["/admin/*".data], [], [], [], [], []⟩ "GET".data
      "/admin/settings".data ⟨"op1".data, [], [], []⟩ = true :=
  ⟨by decide, claim_C8_exclude_patterns.1 _ _ _ (by decide)⟩

/-- C10 (implicit): a malformed exclude pattern — one on which Go
`filepath.Match` reports `ErrBadPattern` — matches nothing, because
`matchesPattern` discards the error and `Match` returns `false` with it;
hence a policy whose exclude patterns all error on a path excludes no
operation at that path on their account. -/
theorem claim_C10_bad_pattern_never_matches :
    (∀ (path pattern : Str),
        goMatch (convertPattern pattern) path = .bad →
        matchesPattern path pattern = false) ∧
    (∀ (patterns : List Str) (method path : Str) (op : Operation),
        (∀ pat ∈ patterns, goMatch (convertPattern pat) path = .bad) →
        ShouldExcludeOperation ⟨[], patterns, [], [], [], [], []⟩ method path op = false) := by
  have part1 : ∀ (path pattern : Str),
      goMatch (convertPattern pattern) path = .bad →
      matchesPattern path pattern = false := by
    intro path pattern h
    unfold matchesPattern
    rw [h]
  refine ⟨part1, ?_⟩
  intro patterns method path op hall
  have h4 : patterns.any (fun pat => matchesPattern path pat) = false := by
    cases hany : patterns.any (fun pat => matchesPattern path pat)
    · rfl
    · have ⟨pat, hp, ht⟩ := List.any_eq_true.mp hany
      rw [part1 path pat (hall pat hp)] at ht
      exact absurd ht (by simp)
  simp [ShouldExcludeOperation, h4]

/-- Witness for C10: the malformed pattern `[` errors under glob matching
and excludes nothing. -/
theorem claim_C10_bad_pattern_never_matches_witness :
    (∀ pat ∈ (["[".data] : List Str), goMatch (convertPattern pat) "/admin/x".data = .bad) ∧
    ShouldExcludeOperation ⟨[], ["[".data], [], [], [], [], []⟩ "GET".data "/admin/x".data
      ⟨[], [], [], []⟩ = false :=
  ⟨by decide, claim_C10_bad_pattern_never_matches.2 _ _ _ _ (by decide)⟩

/-- C5: an upstream response with status at least 400 becomes a
structured, non-thrown result in both front-ends: the session handler
returns `Except.ok` (no transport error) with `isError = true` and a text
carrying the status and body; the HTTP front-end returns `Except.ok` with
`error: true`, the status, and the body. -/
theorem claim_C5_upstream_error_result :
    ∀ (statusCode : Nat) (responseBody : Str) (parsed : Option Json),
      400 ≤ statusCode →
      handleHTTPResponse statusCode responseBody parsed =
        Except.ok ⟨"API error ".data ++ natToStr statusCode ++ ": ".data ++ responseBody,
          true⟩ ∧
      executeHTTPResponse statusCode responseBody parsed =
        Except.ok (Json.obj [("error".data, Json.bool true),
          ("status".data, Json.num statusCode),
          ("message".data, Json.str responseBody)]) := by
  intro statusCode responseBody parsed h
  constructor
  · unfold handleHTTPResponse
    rw [if_pos h]
  · unfold executeHTTPResponse
    rw [if_pos h]

/-- Witness for C5 at status 404: `isError = true`, the status and body
are carried, and no transport-level error is thrown. -/
theorem claim_C5_upstream_error_result_witness :
    400 ≤ 404 ∧
    handleHTTPResponse 404 "not found".data none =
      Except.ok ⟨"API error 404: not found".data, true⟩ ∧
    executeHTTPResponse 404 "not found".data none =
      Except.ok (Json.obj [("error".data, Json.bool true), ("status".data, Json.num 404),
        ("message".data, Json.str "not found".data)]) := by
  have h := claim_C5_upstream_error_result 404 "not found".data none (by norm_num)
  refine ⟨by norm_num, ?_, ?_⟩
  · rw [h.1]
    rfl
  · rw [h.2]
    rfl

/-- C9 counterexample: a resolved tool call whose upstream response is a
404 produces the `error: true` normalized result, yet the invocation
endpoint returns it with HTTP status 200, which is not an error
status — the claimed mirroring of `isError` into the HTTP status does not
happen. -/
theorem claim_C9_status_counterexample :
    executeHTTPResponse 404 "not found".data none =
      Except.ok (Json.obj [("error".data, Json.bool true), ("status".data, Json.num 404),
        ("message".data, Json.str "not found".data)]) ∧
    (handleToolCallMCP [("name".data, Json.str "get_pets".data)]
        (ToolCallOutcome.success (Json.obj [("error".data, Json.bool true),
          ("status".data, Json.num 404),
          ("message".data, Json.str "not found".data)]))).2 = 200 ∧
    ¬ 400 ≤ 200 := by
  refine ⟨?_, rfl, by norm_num⟩
  unfold executeHTTPResponse
  rw [if_pos (by norm_num)]
  rfl

/-- C9 amended: the invocation endpoint returns HTTP 200 for every
successfully resolved and executed tool call regardless of the result's
error flag (upstream failures travel only inside the JSON result); HTTP
error statuses arise only from a missing or non-string tool name (400)
and from a failed resolution or transport-level execution (500). -/
theorem claim_C9_status_amended :
    ∀ (n : Str) (params : List (Str × Json)) (r : Json) (e : Str)
      (outcome : ToolCallOutcome),
      handleToolCallMCP (("name".data, Json.str n) :: params)
          (ToolCallOutcome.success r) = (r, 200) ∧
      handleToolCallMCP (("name".data, Json.str n) :: params)
          (ToolCallOutcome.failure e) =
        (Json.obj [("error".data, Json.str e)], 500) ∧
      handleToolCallMCP [] outcome =
        (Json.obj [("error".data, Json.str "Missing or invalid tool name".data)], 400) := by
  intro n params r e outcome
  refine ⟨rfl, rfl, ?_⟩
  cases outcome <;> rfl

/-- Deleting a key from the argument map only removes entries. -/
theorem eraseArg_sublist (l : List (Str × Json)) (key : Str) :
    (eraseArg l key).Sublist l := by
  induction l with
  | nil => simp [eraseArg]
  | cons kv t ih =>
    unfold eraseArg
    by_cases h : kv.1 = key
    · rw [if_pos h]
      exact ih.trans (List.sublist_cons_self kv t)
    · rw [if_neg h]
      exact ih.cons₂ kv

/-- Every entry surviving `eraseArg` has a key different from the erased
one. -/
theorem eraseArg_key_ne (l : List (Str × Json)) (key : Str) :
    ∀ kv ∈ eraseArg l key, kv.1 ≠ key := by
  induction l with
  | nil => simp [eraseArg]
  | cons kv t ih =>
    unfold eraseArg
    by_cases h : kv.1 = key
    · rw [if_pos h]; exact ih
    · rw [if_neg h]
      intro kv' hkv'
      rcases List.mem_cons.mp hkv' with h1 | h2
      · rw [h1]; exact h
      · exact ih kv' h2

/-- The path-substitution loop only removes entries from the map. -/
theorem substLoop_snd_sublist :
    ∀ (l : List (Str × Json)) (url : Str), ((substLoop url l).2).Sublist l := by
  intro l
  induction l with
  | nil => intro url; simp [substLoop]
  | cons kv t ih =>
    intro url
    unfold substLoop
    by_cases h : strContains url (lb :: (kv.1 ++ [rb])) = true
    · rw [if_pos h]
      exact (ih _).trans (List.sublist_cons_self kv t)
    · rw [if_neg h]
      exact (ih url).cons₂ kv

/-- A key that is absent from the map looks up to nothing. -/
theorem lookupArg_eq_none (l : List (Str × Json)) (key : Str)
    (h : ∀ kv ∈ l, kv.1 ≠ key) : lookupArg l key = none := by
  induction l with
  | nil => rfl
  | cons kv t ih =>
    unfold lookupArg
    rw [if_neg (h kv (List.mem_cons_self kv t))]
    exact ih (fun kv' hkv' => h kv' (List.mem_cons_of_mem kv hkv'))

/-- C6 counterexample: the executor mutates the caller's map — after
building a POST with a `body` argument, the map the caller supplied no
longer contains the `body` entry (no private copy is taken). -/
theorem claim_C6_executor_mutation_counterexample :
    (buildAPIRequest "POST".data "http://api".data "/users".data
        [("body".data, Json.null)]).finalArgs ≠ [("body".data, Json.null)] := by
  intro h
  exact absurd (congrArg List.length h) (by decide)

/-- C6 amended: the Request Executor takes no private copy — it deletes
the `body` key and every substituted path key from the very map it is
given, identically in both front-ends; the mutation is only ever a
deletion (the final map is a sublist of the original, characterized by
the erase-then-substitute pipeline, and never retains `body`). Isolation
between invocations holds only because each front-end unmarshals a fresh
map from the request's JSON for every invocation. -/
theorem claim_C6_executor_mutation_amended :
    ∀ (method baseURL path : Str) (args : List (Str × Json)),
      createHandlerRequest method baseURL path args =
        buildAPIRequest method baseURL path args ∧
      (buildAPIRequest method baseURL path args).finalArgs =
        (substLoop (baseURL ++ path) (eraseArg args "body".data)).2 ∧
      ((buildAPIRequest method baseURL path args).finalArgs).Sublist args ∧
      lookupArg (buildAPIRequest method baseURL path args).finalArgs "body".data = none := by
  intro method baseURL path args
  have hfinal : (buildAPIRequest method baseURL path args).finalArgs =
      (substLoop (baseURL ++ path) (eraseArg args "body".data)).2 := by
    unfold buildAPIRequest
    by_cases h1 : isBodyMethod method = true
    · rw [if_pos h1]
    · rw [if_neg h1]
      by_cases h2 : (substLoop (baseURL ++ path) (eraseArg args "body".data)).2.length > 0
      · rw [if_pos h2]
      · rw [if_neg h2]
  refine ⟨rfl, hfinal, ?_, ?_⟩
  · rw [hfinal]
    exact (substLoop_snd_sublist _ _).trans (eraseArg_sublist args "body".data)
  · rw [hfinal]
    apply lookupArg_eq_none
    intro kv hkv
    exact eraseArg_key_ne args "body".data kv
      ((substLoop_snd_sublist _ _).subset hkv)

/-- A pattern starting with a character absent from `s` occurs in
`s ++ t` exactly where it occurs in `t`. -/
theorem strContains_append_left (c : Char) (pat s t : Str)
    (hpat : pat.head? = some c) (hc : c ∉ s) :
    strContains (s ++ t) pat = strContains t pat := by
  induction s with
  | nil => rfl
  | cons a s' ih =>
    obtain ⟨pat', rfl⟩ : ∃ pat', pat = c :: pat' := by
      cases pat with
      | nil => simp at hpat
      | cons x xs =>
        simp only [List.head?_cons, Option.some.injEq] at hpat
        exact ⟨xs, by rw [hpat]⟩
    have hca : (c == a) = false := by
      simp only [List.mem_cons, not_or] at hc
      simp [hc.1]
    simp only [List.cons_append, strContains, List.isPrefixOf, hca, Bool.false_and,
      Bool.false_or]
    exact ih (by simp only [List.mem_cons, not_or] at hc; exact hc.2)

/-- `ReplaceAll` with a pattern starting with a character absent from `s`
leaves an `s` prefix untouched. -/
theorem replaceAll_append_left (c : Char) (pat new s t : Str)
    (hpat : pat.head? = some c) (hc : c ∉ s) :
    replaceAll (s ++ t) pat new = s ++ replaceAll t pat new := by
  induction s with
  | nil => rfl
  | cons a s' ih =>
    have hne : pat ≠ [] := by
      cases pat
      · simp at hpat
      · simp
    obtain ⟨pat', rfl⟩ : ∃ pat', pat = c :: pat' := by
      cases pat with
      | nil => simp at hpat
      | cons x xs =>
        simp only [List.head?_cons, Option.some.injEq] at hpat
        exact ⟨xs, by rw [hpat]⟩
    have hca : (c == a) = false := by
      simp only [List.mem_cons, not_or] at hc
      simp [hc.1]
    rw [List.cons_append, replaceAll_cons _ _ hne]
    rw [if_neg (by simp [List.isPrefixOf, hca])]
    rw [List.cons_append]
    exact congrArg (a :: ·)
      (ih (by simp only [List.mem_cons, not_or] at hc; exact hc.2))

/-- Matching `k\x7d` against `n\x7d…` for brace-free `k` and `n` succeeds
exactly when `k = n`. -/
theorem isPrefixOf_hole (k : Str) (hk : braceFree k) :
    ∀ (n R : Str), braceFree n →
      (k ++ [rb]).isPrefixOf (n ++ rb :: R) = decide (k = n) := by
  induction k with
  | nil =>
    intro n R hn
    cases n with
    | nil => simp [List.isPrefixOf]
    | cons b n' =>
      have hb : (rb == b) = false := by
        have : rb ≠ b := fun h => hn.2 (h ▸ List.mem_cons_self b n')
        simp [this]
      simp [List.isPrefixOf, hb]
  | cons a k' ih =>
    intro n R hn
    have hk' : braceFree k' :=
      ⟨fun h => hk.1 (List.mem_cons_of_mem a h), fun h => hk.2 (List.mem_cons_of_mem a h)⟩
    cases n with
    | nil =>
      have ha : (a == rb) = false := by
        have : a ≠ rb := fun h => hk.2 (h ▸ List.mem_cons_self a k')
        simp [this]
      simp [List.isPrefixOf, ha]
    | cons b n' =>
      have hn' : braceFree n' :=
        ⟨fun h => hn.1 (List.mem_cons_of_mem b h), fun h => hn.2 (List.mem_cons_of_mem b h)⟩
      by_cases hab : a = b
      · subst hab
        simp [List.isPrefixOf, ih hk' n' R hn']
      · simp [List.isPrefixOf, hab]

/-- A placeholder occurs in a well-formed template's text exactly when the
template has a hole of that name. -/
theorem strContains_render (k : Str) (hk : braceFree k) :
    ∀ (ps : List TemplatePiece), (∀ pc ∈ ps, pieceOK pc) →
      strContains (renderTemplate ps) (lb :: (k ++ [rb])) =
        decide (TemplatePiece.hole k ∈ ps) := by
  intro ps
  induction ps with
  | nil => intro _; simp [renderTemplate, strContains]
  | cons pc rest ih =>
    intro hps
    have hrest : ∀ pc ∈ rest, pieceOK pc := fun pc h => hps pc (List.mem_cons_of_mem _ h)
    cases pc with
    | lit s =>
      have hs : braceFree s := hps (.lit s) (List.mem_cons_self _ _)
      simp only [renderTemplate]
      rw [strContains_append_left lb (lb :: (k ++ [rb])) s _ rfl hs.1, ih hrest]
      simp
    | hole n =>
      have hn : braceFree n := hps (.hole n) (List.mem_cons_self _ _)
      simp only [renderTemplate]
      rw [show strContains (lb :: (n ++ rb :: renderTemplate rest)) (lb :: (k ++ [rb])) =
          ((lb :: (k ++ [rb])).isPrefixOf (lb :: (n ++ rb :: renderTemplate rest)) ||
            strContains (n ++ rb :: renderTemplate rest) (lb :: (k ++ [rb]))) from rfl]
      have h1 : (lb :: (k ++ [rb])).isPrefixOf (lb :: (n ++ rb :: renderTemplate rest)) =
          decide (k = n) := by
        simp only [List.isPrefixOf, beq_self_eq_true, Bool.true_and]
        exact isPrefixOf_hole k hk n _ hn
      have h2 : strContains (n ++ rb :: renderTemplate rest) (lb :: (k ++ [rb])) =
          strContains (renderTemplate rest) (lb :: (k ++ [rb])) := by
        rw [strContains_append_left lb (lb :: (k ++ [rb])) n _ rfl hn.1]
        rw [show strContains (rb :: renderTemplate rest) (lb :: (k ++ [rb])) =
            ((lb :: (k ++ [rb])).isPrefixOf (rb :: renderTemplate rest) ||
              strContains (renderTemplate rest) (lb :: (k ++ [rb]))) from rfl]
        rw [show ((lb :: (k ++ [rb])).isPrefixOf (rb :: renderTemplate rest)) = false from by
          simp [List.isPrefixOf, show (lb == rb) = false from by decide]]
        simp
      rw [h1, h2, ih hrest]
      by_cases hkn : k = n <;> simp [hkn, List.mem_cons]

/-- Substituting a placeholder in a well-formed template's text replaces
exactly the matching holes. -/
theorem replaceAll_render (k v : Str) (hk : braceFree k) :
    ∀ (ps : List TemplatePiece), (∀ pc ∈ ps, pieceOK pc) →
      replaceAll (renderTemplate ps) (lb :: (k ++ [rb])) v =
        renderTemplate (substHole k v ps) := by
  intro ps
  induction ps with
  | nil => intro _; simp [renderTemplate, substHole, replaceAll_nil_left]
  | cons pc rest ih =>
    intro hps
    have hrest : ∀ pc ∈ rest, pieceOK pc := fun pc h => hps pc (List.mem_cons_of_mem _ h)
    cases pc with
    | lit s =>
      have hs : braceFree s := hps (.lit s) (List.mem_cons_self _ _)
      simp only [renderTemplate, substHole]
      rw [replaceAll_append_left lb (lb :: (k ++ [rb])) v s _ rfl hs.1, ih hrest]
    | hole n =>
      have hn : braceFree n := hps (.hole n) (List.mem_cons_self _ _)
      simp only [renderTemplate, substHole]
      rw [replaceAll_cons _ _ (by simp) lb (n ++ rb :: renderTemplate rest)]
      have hpre : (lb :: (k ++ [rb])).isPrefixOf (lb :: (n ++ rb :: renderTemplate rest)) =
          decide (k = n) := by
        simp only [List.isPrefixOf, beq_self_eq_true, Bool.true_and]
        exact isPrefixOf_hole k hk n _ hn
      by_cases hkn : k = n
      · subst hkn
        rw [if_pos (by rw [hpre]; simp)]
        have hdrop : ((k ++ rb :: renderTemplate rest).drop ((lb :: (k ++ [rb])).length - 1)) =
            renderTemplate rest := by
          rw [show (lb :: (k ++ [rb])).length - 1 = (k ++ [rb]).length from by simp]
          rw [show k ++ rb :: renderTemplate rest = (k ++ [rb]) ++ renderTemplate rest from by
            simp]
          exact List.drop_left _ _
        rw [hdrop, ih hrest]
        simp [renderTemplate]
      · rw [if_neg (by rw [hpre]; simp [hkn])]
        rw [replaceAll_append_left lb (lb :: (k ++ [rb])) v n _ rfl hn.1]
        rw [replaceAll_cons _ _ (by simp) rb (renderTemplate rest)]
        rw [if_neg (by simp [List.isPrefixOf, show (lb == rb) = false from by decide])]
        rw [ih hrest]
        have hnk : n ≠ k := fun h => hkn h.symm
        simp [renderTemplate, hnk]

/-- Substituting a brace-free value keeps a template well-formed. -/
theorem substHole_piecesOK (k v : Str) (hv : braceFree v) :
    ∀ ps, (∀ pc ∈ ps, pieceOK pc) → ∀ pc ∈ substHole k v ps, pieceOK pc := by
  intro ps
  induction ps with
  | nil => intro _ pc h; simp [substHole] at h
  | cons pc0 rest ih =>
    intro hps pc hmem
    have hrest : ∀ pc ∈ rest, pieceOK pc := fun pc h => hps pc (List.mem_cons_of_mem _ h)
    cases pc0 with
    | lit s =>
      simp only [substHole, List.mem_cons] at hmem
      rcases hmem with h | h
      · rw [h]; exact hps (.lit s) (List.mem_cons_self _ _)
      · exact ih hrest pc h
    | hole n =>
      simp only [substHole, List.mem_cons] at hmem
      rcases hmem with h | h
      · rw [h]
        by_cases hnk : n = k
        · rw [if_pos hnk]; exact hv
        · rw [if_neg hnk]; exact hps (.hole n) (List.mem_cons_self _ _)
      · exact ih hrest pc h

/-- Substituting one placeholder does not change whether a differently
named hole occurs. -/
theorem substHole_hole_mem (k v k' : Str) (hne : k' ≠ k) :
    ∀ ps, (TemplatePiece.hole k' ∈ substHole k v ps ↔ TemplatePiece.hole k' ∈ ps) := by
  intro ps
  induction ps with
  | nil => simp [substHole]
  | cons pc rest ih =>
    cases pc with
    | lit s => simp [substHole, ih]
    | hole n =>
      by_cases hnk : n = k
      · subst hnk
        simp only [substHole, if_pos rfl, List.mem_cons]
        constructor
        · intro h
          rcases h with h | h
          · exact absurd h (by simp)
          · exact Or.inr (ih.mp h)
        · intro h
          rcases h with h | h
          · exact absurd (TemplatePiece.hole.injEq k' n ▸ h) (by simp [hne])
          · exact Or.inr (ih.mpr h)
      · simp [substHole, hnk, ih]

/-- Core of the C3 correction: over a well-formed template, with
brace-free base URL, keys and rendered values, and distinct keys, the
code's substitution loop (which tests the URL built so far) computes the
same URL and the same surviving pairs as the claim's loop (which tests
the path template). -/
theorem substLoop_eq_spec (base : Str) (ps0 : List TemplatePiece)
    (hbase : braceFree base) (hps0 : ∀ pc ∈ ps0, pieceOK pc) :
    ∀ (args : List (Str × Json)) (ps : List TemplatePiece),
      (∀ pc ∈ ps, pieceOK pc) →
      (∀ kv ∈ args, braceFree kv.1 ∧ braceFree (goFormatV kv.2)) →
      (args.map Prod.fst).Nodup →
      (∀ kv ∈ args, (TemplatePiece.hole kv.1 ∈ ps ↔ TemplatePiece.hole kv.1 ∈ ps0)) →
      substLoop (base ++ renderTemplate ps) args =
        specSubstLoop (renderTemplate ps0) (base ++ renderTemplate ps) args := by
  intro args
  induction args with
  | nil => intro ps _ _ _ _; rfl
  | cons kv rest ih =>
    intro ps hps hbf hnd hiff
    have hk : braceFree kv.1 := (hbf kv (List.mem_cons_self _ _)).1
    have hv : braceFree (goFormatV kv.2) := (hbf kv (List.mem_cons_self _ _)).2
    have hbfrest : ∀ kv' ∈ rest, braceFree kv'.1 ∧ braceFree (goFormatV kv'.2) :=
      fun kv' h => hbf kv' (List.mem_cons_of_mem _ h)
    have hndrest : (rest.map Prod.fst).Nodup := by
      simp only [List.map_cons, List.nodup_cons] at hnd
      exact hnd.2
    have hknotin : kv.1 ∉ rest.map Prod.fst := by
      simp only [List.map_cons, List.nodup_cons] at hnd
      exact hnd.1
    have hcode : strContains (base ++ renderTemplate ps) (lb :: (kv.1 ++ [rb])) =
        decide (TemplatePiece.hole kv.1 ∈ ps) := by
      rw [strContains_append_left lb (lb :: (kv.1 ++ [rb])) base _ rfl hbase.1]
      exact strContains_render kv.1 hk ps hps
    have hspec : strContains (renderTemplate ps0) (lb :: (kv.1 ++ [rb])) =
        decide (TemplatePiece.hole kv.1 ∈ ps0) := strContains_render kv.1 hk ps0 hps0
    have hiff0 := hiff kv (List.mem_cons_self _ _)
    simp only [substLoop, specSubstLoop]
    by_cases hm : TemplatePiece.hole kv.1 ∈ ps
    · have hm0 : TemplatePiece.hole kv.1 ∈ ps0 := hiff0.mp hm
      rw [if_pos (by rw [hcode]; simpa using hm),
        if_pos (by rw [hspec]; simpa using hm0)]
      have hrepl : replaceAll (base ++ renderTemplate ps) (lb :: (kv.1 ++ [rb]))
          (goFormatV kv.2) =
          base ++ renderTemplate (substHole kv.1 (goFormatV kv.2) ps) := by
        rw [replaceAll_append_left lb (lb :: (kv.1 ++ [rb])) (goFormatV kv.2) base _ rfl
          hbase.1]
        rw [replaceAll_render kv.1 (goFormatV kv.2) hk ps hps]
      rw [hrepl]
      apply ih
      · exact substHole_piecesOK kv.1 (goFormatV kv.2) hv ps hps
      · exact hbfrest
      · exact hndrest
      · intro kv' hkv'
        have hne : kv'.1 ≠ kv.1 := by
          intro he
          exact hknotin (he ▸ List.mem_map_of_mem Prod.fst hkv')
        rw [substHole_hole_mem kv.1 (goFormatV kv.2) kv'.1 hne ps]
        exact hiff kv' (List.mem_cons_of_mem _ hkv')
    · have hm0 : TemplatePiece.hole kv.1 ∉ ps0 := fun h => hm (hiff0.mpr h)
      rw [if_neg (by rw [hcode]; simpa using hm),
        if_neg (by rw [hspec]; simpa using hm0)]
      have heq := ih ps hps hbfrest hndrest
        (fun kv' hkv' => hiff kv' (List.mem_cons_of_mem _ hkv'))
      rw [show (let pr := substLoop (base ++ renderTemplate ps) rest;
          (pr.1, kv :: pr.2)) =
          ((substLoop (base ++ renderTemplate ps) rest).1,
            kv :: (substLoop (base ++ renderTemplate ps) rest).2) from rfl]
      rw [show (let pr := specSubstLoop (renderTemplate ps0) (base ++ renderTemplate ps) rest;
          (pr.1, kv :: pr.2)) =
          ((specSubstLoop (renderTemplate ps0) (base ++ renderTemplate ps) rest).1,
            kv :: (specSubstLoop (renderTemplate ps0) (base ++ renderTemplate ps) rest).2)
          from rfl]
      rw [heq]

/-- C3 counterexample: the claim as stated is false — the code substitutes
a key whenever its placeholder occurs in the URL built so far (base URL
included), not only when it occurs in the path template. With base URL
`http://h/\x7bid\x7d`, path `/pets` and arguments `\x7bid: 7\x7d` the code
substitutes `id` into the base URL and sends no query, while the claim's
description leaves `id` as a query parameter. -/
theorem claim_C3_request_building_counterexample :
    buildAPIRequest "GET".data "http://h/\x7bid\x7d".data "/pets".data
        [("id".data, Json.num 7)] ≠
      specBuildRequest "GET".data "http://h/\x7bid\x7d".data "/pets".data
        [("id".data, Json.num 7)] := by
  intro h
  exact absurd (congrArg BuiltRequest.url h) (by decide)

/-- C3 amended: the executor behaves as the claim describes — `body`
removed first and used only as the body payload, substituted keys removed
from the map, query parameters for non-body methods — with two
corrections: a key is substituted when its placeholder occurs in the URL
built so far (not merely in the path template), and a POST/PUT/PATCH body
is the captured payload only when it is non-null (a `body` argument bound
to JSON null unmarshals to the nil interface and is ignored, falling back
to the JSON encoding of the remaining map, or to no body at all). Over
well-formed path templates with a brace-free base URL, brace-free
distinct keys and brace-free rendered values (every real OpenAPI
configuration), the code agrees with the so-corrected claim-worded
builder; the claim's two concrete examples hold, and the last two
conjuncts evaluate the null-body fallbacks. -/
theorem claim_C3_request_building_amended :
    (∀ (method base : Str) (ps : List TemplatePiece) (args : List (Str × Json)),
        braceFree base → (∀ pc ∈ ps, pieceOK pc) →
        (∀ kv ∈ args, braceFree kv.1 ∧ braceFree (goFormatV kv.2)) →
        ((args.map Prod.fst)).Nodup →
        buildAPIRequest method base (renderTemplate ps) args =
          specBuildRequest method base (renderTemplate ps) args) ∧
    buildAPIRequest "GET".data "http://api".data "/pets/\x7bid\x7d".data
        [("id".data, Json.num 7), ("filter".data, Json.str "active".data)] =
      ⟨"http://api/pets/7?filter=active".data, none,
        [("filter".data, Json.str "active".data)]⟩ ∧
    buildAPIRequest "POST".data "http://api".data "/users".data
        [("body".data, Json.obj [("name".data, Json.str "A".data)])] =
      ⟨"http://api/users".data, some "\x7b\"name\":\"A\"\x7d".data, []⟩ ∧
    buildAPIRequest "POST".data "http://api".data "/users".data
        [("body".data, Json.null), ("x".data, Json.num 1)] =
      ⟨"http://api/users".data, some "\x7b\"x\":1\x7d".data, [("x".data, Json.num 1)]⟩ ∧
    buildAPIRequest "POST".data "http://api".data "/users".data
        [("body".data, Json.null)] =
      ⟨"http://api/users".data, none, []⟩ := by
  refine ⟨?_, rfl, rfl, rfl, rfl⟩
  intro method base ps args hbase hps hbf hnd
  have hsub := eraseArg_sublist args "body".data
  have heq := substLoop_eq_spec base ps hbase hps (eraseArg args "body".data) ps hps
    (fun kv h => hbf kv (hsub.subset h))
    (hnd.sublist (hsub.map Prod.fst))
    (fun kv _ => Iff.rfl)
  simp only [buildAPIRequest, specBuildRequest]
  rw [heq]

/-- Witness for C3 (amended) at the claim's own example: base
`http://api`, template `/pets/\x7bid\x7d`, arguments `id = 7`,
`filter = "active"`. -/
theorem claim_C3_request_building_amended_witness :
    (braceFree "http://api".data ∧
      (∀ pc ∈ [TemplatePiece.lit "/pets/".data, TemplatePiece.hole "id".data], pieceOK pc) ∧
      (∀ kv ∈ [("id".data, Json.num 7), ("filter".data, Json.str "active".data)],
        braceFree kv.1 ∧ braceFree (goFormatV kv.2)) ∧
      (([("id".data, Json.num 7),
        ("filter".data, Json.str "active".data)].map Prod.fst)).Nodup) ∧
    buildAPIRequest "GET".data "http://api".data
        (renderTemplate [TemplatePiece.lit "/pets/".data, TemplatePiece.hole "id".data])
        [("id".data, Json.num 7), ("filter".data, Json.str "active".data)] =
      specBuildRequest "GET".data "http://api".data
        (renderTemplate [TemplatePiece.lit "/pets/".data, TemplatePiece.hole "id".data])
        [("id".data, Json.num 7), ("filter".data, Json.str "active".data)] :=
  ⟨⟨by decide, by decide, by decide, by decide⟩,
    claim_C3_request_building_amended.1 "GET".data "http://api".data
      [TemplatePiece.lit "/pets/".data, TemplatePiece.hole "id".data]
      [("id".data, Json.num 7), ("filter".data, Json.str "active".data)]
      (by decide) (by decide) (by decide) (by decide)⟩

/-- Assigning an absent key appends it. -/
theorem mapSet_not_mem (props : List (Str × Json)) (key : Str) (v : Json)
    (h : key ∉ props.map Prod.fst) : mapSet props key v = props ++ [(key, v)] := by
  induction props with
  | nil => rfl
  | cons kv t ih =>
    simp only [List.map_cons, List.mem_cons, not_or] at h
    unfold mapSet
    rw [if_neg (fun he => h.1 he.symm), ih h.2]
    rfl

/-- The parameter fold appends to its accumulators: when the kept keys
are fresh and distinct, the final properties map is the per-parameter
list in encounter order, and the required list collects the keys of kept
required parameters in encounter order. -/
theorem buildParametersSchemaAux_spec :
    ∀ (params : List Parameter) (props : List (Str × Json)) (req : List Str),
      (∀ p ∈ params.filter keepParam, paramKey p ∉ props.map Prod.fst) →
      (((params.filter keepParam).map paramKey)).Nodup →
      buildParametersSchemaAux params props req =
        (props ++
          (params.filter keepParam).map (fun p => (paramKey p, buildParamSchema p)),
         req ++ ((params.filter keepParam).filter (fun p => p.required)).map paramKey) := by
  intro params
  induction params with
  | nil => intro props req _ _; simp [buildParametersSchemaAux]
  | cons p rest ih =>
    intro props req hfresh hnd
    by_cases hk : keepParam p = true
    · have hfilter : (p :: rest).filter keepParam = p :: rest.filter keepParam := by
        simp [List.filter_cons, hk]
      rw [hfilter] at hfresh hnd
      simp only [List.map_cons, List.nodup_cons] at hnd
      have hphead : paramKey p ∉ props.map Prod.fst :=
        hfresh p (List.mem_cons_self _ _)
      have hfresh2 : ∀ q ∈ rest.filter keepParam,
          paramKey q ∉ (props ++ [(paramKey p, buildParamSchema p)]).map Prod.fst := by
        intro q hq
        simp only [List.map_append, List.mem_append, not_or]
        refine ⟨hfresh q (List.mem_cons_of_mem _ hq), ?_⟩
        intro he
        simp only [List.map_cons, List.map_nil, List.mem_singleton] at he
        exact hnd.1 (he ▸ List.mem_map_of_mem paramKey hq)
      unfold buildParametersSchemaAux
      rw [if_pos hk, mapSet_not_mem props (paramKey p) (buildParamSchema p) hphead]
      rw [ih (props ++ [(paramKey p, buildParamSchema p)])
        (if p.required = true then req ++ [paramKey p] else req) hfresh2 hnd.2]
      by_cases hr : p.required = true <;>
        simp [hfilter, List.filter_cons, hr, List.append_assoc]
    · have hfilter : (p :: rest).filter keepParam = rest.filter keepParam := by
        simp only [List.filter_cons]
        rw [if_neg hk]
      rw [hfilter] at hfresh hnd
      unfold buildParametersSchemaAux
      rw [if_neg hk, ih props req hfresh hnd, hfilter]

/-- C7 counterexample: the claim as stated is false — the code dispatches
on a parameter's declared type and schema, not on its location. A
query-located parameter with an empty declared type and no schema yields
an empty property object, while the claim's description (Type Mapper on
the declared type, `else string`) demands type `string`. -/
theorem claim_C7_input_schema_counterexample :
    buildParametersSchema [⟨"q".data, "query".data, [], false, [], [], none, none⟩] ≠
      claimInputSchema [⟨"q".data, "query".data, [], false, [], [], none, none⟩] := by
  intro h
  exact absurd (congrArg jsonMarshal h) (by decide)

/-- C7 amended: the built schema omits cookie parameters and header
parameters other than `content-type`, keys body parameters under `body`
and the rest under their own names, and appends each kept required
parameter's key to the required list in encounter order (the list present
only when non-empty); each kept parameter's property content is produced
by `buildParamSchema`, which dispatches on the declared type first (Type
Mapper), then on an attached schema (first type entry verbatim, default
`object`, with copied properties), and emits an empty property when both
are absent; items are added when the declared type is `array` and items
exist. The first part characterizes the whole schema for distinct keys;
the second evaluates a list exercising every rule. -/
theorem claim_C7_input_schema_amended :
    (∀ params : List Parameter,
        (((params.filter keepParam).map paramKey)).Nodup →
        buildParametersSchema params =
          Json.obj
            ([("type".data, Json.str "object".data),
              ("properties".data,
                Json.obj ((params.filter keepParam).map
                  (fun p => (paramKey p, buildParamSchema p))))] ++
             (if ((((params.filter keepParam).filter
                    (fun p => p.required)).map paramKey)).length > 0 then
                [("required".data,
                  Json.arr (((((params.filter keepParam).filter
                    (fun p => p.required)).map paramKey)).map Json.str))]
              else []))) ∧
    buildParametersSchema exampleParams =
      Json.obj
        [("type".data, Json.str "object".data),
         ("properties".data, Json.obj
           [("id".data, Json.obj [("type".data, Json.str "string".data)]),
            ("Content-Type".data, Json.obj [("type".data, Json.str "string".data)]),
            ("body".data, Json.obj
              [("type".data, Json.str "object".data),
               ("properties".data, Json.obj
                 [("name".data, Json.obj
                   [("type".data, Json.str "string".data),
                    ("description".data, Json.str "the name".data)])])]),
            ("tags".data, Json.obj
              [("type".data, Json.str "array".data),
               ("items".data, Json.obj [("type".data, Json.str "number".data)])])]),
         ("required".data, Json.arr [Json.str "id".data, Json.str "body".data])] := by
  refine ⟨?_, rfl⟩
  intro params hnd
  simp only [buildParametersSchema]
  rw [buildParametersSchemaAux_spec params [] [] (by simp) hnd]
  simp

/-- Witness for C7 (amended) at `exampleParams`, whose kept keys are
distinct. -/
theorem claim_C7_input_schema_amended_witness :
    (((exampleParams.filter keepParam).map paramKey)).Nodup ∧
    buildParametersSchema exampleParams =
      Json.obj
        ([("type".data, Json.str "object".data),
          ("properties".data,
            Json.obj ((exampleParams.filter keepParam).map
              (fun p => (paramKey p, buildParamSchema p))))] ++
         (if ((((exampleParams.filter keepParam).filter
                (fun p => p.required)).map paramKey)).length > 0 then
            [("required".data,
              Json.arr (((((exampleParams.filter keepParam).filter
                (fun p => p.required)).map paramKey)).map Json.str))]
          else [])) :=
  ⟨by decide, claim_C7_input_schema_amended.1 exampleParams (by decide)⟩
